import Mathlib

/-!
Verification of the advanced-vector container (src/advanced-vector/vector.h).

The container `Vector<T>` owns a `RawMemory<T>` block of `capacity_` raw slots
of which the first `size_` hold live, constructed elements.  We embed a vector
state as the list of its live elements together with its capacity; the raw
tail `[size, capacity)` is uninitialized memory that no operation observes, so
it carries no information and is represented only by the capacity bound.

Two layers of definitions follow the C++ source:
* pure definitions give the state after each operation on its success path
  (all element copies/moves succeed);
* fallible definitions (suffix `F`) thread an injected per-element failure
  model (which copy constructions, copy assignments and move constructions
  throw, and what moved-from residue a successful move leaves behind) and
  return `Except`: `Except.error w` means the operation threw an exception
  and the container was left in state `w`; `Except.ok w` means it returned
  normally.
-/

set_option autoImplicit false

namespace AdvancedVector

universe u

variable {α : Type u}

/-- Compile-time traits of the element type `T`, driving the
`if constexpr (std::is_nothrow_move_constructible_v<T> || !std::is_copy_constructible_v<T>)`
dispatch in `Reserve`, `EmplaceBack` and `EmplaceNoCapacity`. -/
structure Traits where
  nothrowMoveConstructible : Bool
  copyConstructible : Bool
deriving Repr, DecidableEq

/-- The condition of the `if constexpr` relocation dispatch:
`std::is_nothrow_move_constructible_v<T> || !std::is_copy_constructible_v<T>`. -/
def Traits.useMove (tr : Traits) : Bool :=
  tr.nothrowMoveConstructible || !tr.copyConstructible

/-- State of a `Vector<T>`: `elems` are the live elements occupying slots
`[0, size_)` of the owned `RawMemory` block (so `size_ = elems.length`), and
`cap` is `data_.Capacity()`.  Slots `[elems.length, cap)` are raw
uninitialized memory. -/
structure Vector (α : Type u) where
  elems : List α
  cap : Nat
deriving Repr, DecidableEq

namespace Vector

/-- `Size()`: returns `size_`. -/
def size (v : Vector α) : Nat :=
  v.elems.length

/-- `Capacity()`: returns `data_.Capacity()`. -/
def capacity (v : Vector α) : Nat :=
  v.cap

/-- The class invariant: `0 <= size_ <= data_.Capacity()` (the lower bound is
automatic for `Nat`), slots `[0, size_)` constructed, the rest raw.  In this
representation the live slots are exactly the entries of `elems`, so the
substantive content is the capacity bound. -/
def Wf (v : Vector α) : Prop :=
  v.size ≤ v.cap

instance (v : Vector α) : Decidable v.Wf := by
  unfold Wf; infer_instance

/-- `Vector() = default`: `buffer_ = nullptr, capacity_ = 0, size_ = 0`. -/
def emptyVec : Vector α :=
  ⟨[], 0⟩

/-- `explicit Vector(size_t size)`: allocates `RawMemory(size)` and
value-constructs `size` elements (`std::uninitialized_value_construct_n`);
`d` is the value produced by the element type's value construction `T()`. -/
def sizedCtor (d : α) (n : Nat) : Vector α :=
  ⟨List.replicate n d, n⟩

/-- `Vector(const Vector& other)`: allocates `RawMemory(other.size_)` —
capacity exactly the source's size — and copy-constructs each element in
order (`std::uninitialized_copy_n`). -/
def copyCtor (other : Vector α) : Vector α :=
  ⟨other.elems, other.elems.length⟩

/-- `Swap(Vector& other)`: `data_.Swap(other.data_); std::swap(size_, other.size_)`.
Returns the pair (new state of `*this`, new state of `other`). -/
def swapOp (v other : Vector α) : Vector α × Vector α :=
  (⟨other.elems, other.cap⟩, ⟨v.elems, v.cap⟩)

/-- `Vector(Vector&& other)`: default-initializes `*this` then `this->Swap(other)`.
Returns (the new vector, the state the moved-from source is left in). -/
def moveCtor (other : Vector α) : Vector α × Vector α :=
  swapOp emptyVec other

/-- `operator=(const Vector& rhs)` for `this != &rhs`, success path.
If `rhs.size_ > data_.Capacity()`: builds `Vector rhs_copy(rhs)` and swaps it
in (so the new capacity is `rhs.size_`, per `copyCtor`).  Otherwise reuses
the storage in place: assigns the overlapping prefix of `min(rhs.size_, size_)`
elements, then either destroys the surplus tail (`std::destroy_n`) or
copy-constructs the missing tail (`std::uninitialized_copy_n`), and finally
sets `size_ = rhs.size_`. -/
def copyAssign (v rhs : Vector α) : Vector α :=
  if rhs.elems.length > v.cap then
    ⟨(copyCtor rhs).elems, (copyCtor rhs).cap⟩
  else
    let m := min rhs.elems.length v.elems.length
    let assigned := rhs.elems.take m ++ v.elems.drop m
    if rhs.elems.length < v.elems.length then
      ⟨assigned.take rhs.elems.length, v.cap⟩
    else
      ⟨assigned.take v.elems.length ++ rhs.elems.drop v.elems.length, v.cap⟩

/-- `operator=(const Vector& rhs)` including the `if (this != &rhs)` aliasing
guard; `self` is the value of `this == &rhs` (when `self = true` the argument
`rhs` is the very object `v`). -/
def copyAssignOp (v rhs : Vector α) (self : Bool) : Vector α :=
  if self then v else copyAssign v rhs

/-- `operator=(Vector&& rhs)` for `this != &rhs`: `this->Swap(rhs)`.
Returns (new state of `*this`, state the moved-from `rhs` is left in). -/
def moveAssign (v rhs : Vector α) : Vector α × Vector α :=
  swapOp v rhs

/-- `operator=(Vector&& rhs)` including the `if (this != &rhs)` guard;
`self` is the value of `this == &rhs`. -/
def moveAssignOp (v rhs : Vector α) (self : Bool) : Vector α × Vector α :=
  if self then (v, rhs) else moveAssign v rhs

/-- `Reserve(new_capacity)`, success path: no-op when
`new_capacity <= data_.Capacity()`; otherwise allocates `RawMemory(new_capacity)`,
relocates all `size_` elements into it (move or copy per the trait dispatch —
values are preserved either way on success), destroys the old elements and
swaps the storage in.  `size_` is untouched. -/
def reserve (v : Vector α) (newCapacity : Nat) : Vector α :=
  if newCapacity ≤ v.cap then v
  else ⟨v.elems, newCapacity⟩

/-- `Resize(new_size)`: `Reserve(new_size)`, then value-construct the missing
tail (if growing) or destroy the surplus tail (if shrinking), then
`size_ = new_size`.  `d` is the element value produced by `T()`. -/
def resize (d : α) (v : Vector α) (newSize : Nat) : Vector α :=
  let v' := reserve v newSize
  if v'.elems.length < newSize then
    ⟨v'.elems ++ List.replicate (newSize - v'.elems.length) d, v'.cap⟩
  else
    ⟨v'.elems.take newSize, v'.cap⟩

/-- `EmplaceBack(args...)`, success path, with `x` the element value the
constructor call `T(std::forward<Args>(args)...)` produces.  If
`size_ == Capacity()`: allocates `RawMemory(Capacity() == 0 ? 1 : size_ * 2)`,
constructs `x` into the new block's slot `size_` first, relocates the old
elements into slots `[0, size_)`, destroys them and swaps the storage in.
Otherwise constructs `x` directly into slot `size_`.  Then `size_++`. -/
def emplaceBack (v : Vector α) (x : α) : Vector α :=
  if v.elems.length = v.cap then
    ⟨v.elems ++ [x], if v.cap = 0 then 1 else v.elems.length * 2⟩
  else
    ⟨v.elems ++ [x], v.cap⟩

/-- `PushBack(value)`: forwards to `EmplaceBack`. -/
def pushBack (v : Vector α) (x : α) : Vector α :=
  emplaceBack v x

/-- Index of the reference `EmplaceBack` returns:
`*(data_.GetAddress() + size_ - 1)` read after `size_++`, i.e. slot
`size_ - 1` of the updated vector. -/
def emplaceBackRet (v : Vector α) (x : α) : Option α :=
  (emplaceBack v x).elems[(emplaceBack v x).size - 1]?

/-- `PopBack()`: destroys the element at slot `size_ - 1`, then `--size_`.
Precondition `size_ > 0`. -/
def popBack (v : Vector α) : Vector α :=
  ⟨v.elems.dropLast, v.cap⟩

/-- `EmplaceEnoughtCapacity(index, args...)`, success path (requires
`size_ < Capacity()`, `index < size_`): move-constructs the last element into
slot `size_`, shifts `[index, size_ - 1)` one slot right with
`std::move_backward`, assigns `T(args...)` (value `x`) into slot `index`,
then `++size_`.  Net effect on the live elements: insert `x` at `index`. -/
def emplaceEnoughtCapacity (v : Vector α) (index : Nat) (x : α) : Vector α :=
  ⟨v.elems.take index ++ [x] ++ v.elems.drop index, v.cap⟩

/-- `EmplaceNoCapacity(index, args...)`, success path (requires
`size_ == Capacity()` under the invariant): allocates
`RawMemory(Capacity() == 0 ? 1 : size_ * 2)`, constructs `x` directly into the
new block's slot `index`, relocates the prefix `[0, index)` and the suffix
`[index, size_)` around it (move or copy per the trait dispatch), destroys the
old elements, swaps the storage in, `++size_`. -/
def emplaceNoCapacity (v : Vector α) (index : Nat) (x : α) : Vector α :=
  ⟨v.elems.take index ++ [x] ++ v.elems.drop index,
   if v.cap = 0 then 1 else v.elems.length * 2⟩

/-- `Emplace(position, args...)`, success path, with `index = position - begin()`:
defers to `EmplaceBack` when `position == cend()`, otherwise to
`EmplaceEnoughtCapacity` when `size_ < Capacity()`, else `EmplaceNoCapacity`. -/
def emplace (v : Vector α) (index : Nat) (x : α) : Vector α :=
  if index = v.elems.length then
    emplaceBack v x
  else if v.elems.length < v.cap then
    emplaceEnoughtCapacity v index x
  else
    emplaceNoCapacity v index x

/-- `Erase(position)` with `distance = position - begin()` (requires
`distance < size_`): `std::move(begin() + distance + 1, end(), begin() + distance)`
shifts the suffix one slot left, the last live slot is destroyed, `--size_`. -/
def erase (v : Vector α) (distance : Nat) : Vector α :=
  ⟨v.elems.take distance ++ v.elems.drop (distance + 1), v.cap⟩

/-! ### Fallible layer

Injected element-operation failures: `cf a = true` means copy-constructing a
new element from the value `a` throws, `af a = true` means copy-assigning from
the value `a` throws, `mf a = true` means move-constructing from the value `a`
throws (a type with `std::is_nothrow_move_constructible_v<T>` satisfies
`mf a = false` for every `a`), and `mv a` is the moved-from residue a
successful move leaves in the source slot.  Move assignment (used by
`std::move_backward` and by `data_[index] = T(...)` after the temporary is
built) is modelled as non-throwing.  A fallible operation returns
`Except.error w` when it propagates an exception leaving the container in
state `w`, and `Except.ok w` when it completes in state `w`. -/

/-- `std::uninitialized_copy_n(src, n, dst)` over the whole source range:
copy-constructs each element in order into fresh raw slots; if copying some
element throws, the elements already constructed by this call are destroyed
and the exception is rethrown (`none`), leaving the originals untouched. -/
def uninitializedCopyN (cf : α → Bool) : List α → Option (List α)
  | [] => some []
  | a :: as => if cf a then none else (uninitializedCopyN cf as).map (a :: ·)

/-- `std::uninitialized_move_n(src, n, dst)`: move-constructs each source
element into fresh raw slots in order.  On success the destination receives
the source values (`Except.ok` carries them) and every source slot is left
holding its moved-from residue.  If move-constructing some element throws,
the destination elements already constructed by this call are destroyed and
the exception rethrown; the error carries the state the source range is left
in: moved-from residues before the failing element, the failing element and
its successors untouched. -/
def uninitializedMoveN (mf : α → Bool) (mv : α → α) : List α → Except (List α) (List α)
  | [] => Except.ok []
  | a :: as =>
    if mf a then Except.error (a :: as)
    else
      match uninitializedMoveN mf mv as with
      | Except.error rest => Except.error (mv a :: rest)
      | Except.ok moved => Except.ok (a :: moved)

/-- One relocation batch of the `if constexpr` dispatch in `Reserve`,
`EmplaceBack` and `EmplaceNoCapacity`: move-construct every element in order
(`std::uninitialized_move_n`) when `Traits.useMove`, else copy-construct
every element in order (`std::uninitialized_copy_n`, unwinding on failure
with the originals untouched).  `Except.ok` carries the new slots' contents;
`Except.error` carries the state the source elements are left in after the
throw. -/
def relocateRange (tr : Traits) (cf mf : α → Bool) (mv : α → α) (src : List α) :
    Except (List α) (List α) :=
  if tr.useMove then uninitializedMoveN mf mv src
  else
    match uninitializedCopyN cf src with
    | none => Except.error src
    | some copied => Except.ok copied

/-- The state a relocation batch that completed successfully leaves its
source range in (before the caller's `std::destroy_n` runs): moved-from
residues if the batch moved, untouched originals if it copied. -/
def relocResidue (tr : Traits) (mv : α → α) (src : List α) : List α :=
  if tr.useMove then src.map mv else src

/-- Fallible `EmplaceBack(args...)` where the element construction
`T(std::forward<Args>(args)...)` is a copy construction from `x` (as in
`PushBack(const T& value)`).  Growth path: the new element is constructed
into the freshly allocated block first, then the old elements are relocated;
any throw happens before `data_` or `size_` is touched, and the new block
with its constructed elements is released during unwinding. -/
def emplaceBackF (tr : Traits) (cf mf : α → Bool) (mv : α → α) (v : Vector α)
    (x : α) : Except (Vector α) (Vector α) :=
  if v.elems.length = v.cap then
    if cf x then Except.error v
    else
      match relocateRange tr cf mf mv v.elems with
      | Except.error es => Except.error ⟨es, v.cap⟩
      | Except.ok relocated =>
        Except.ok ⟨relocated ++ [x], if v.cap = 0 then 1 else v.elems.length * 2⟩
  else
    if cf x then Except.error v
    else Except.ok ⟨v.elems ++ [x], v.cap⟩

/-- Fallible `Reserve(new_capacity)`: when growth is needed the fallible
steps are the relocation constructions into the new block, all before
`data_` is swapped; a throw leaves the old storage installed, its elements
in whatever state the failed batch left them. -/
def reserveF (tr : Traits) (cf mf : α → Bool) (mv : α → α) (v : Vector α)
    (newCapacity : Nat) : Except (Vector α) (Vector α) :=
  if newCapacity ≤ v.cap then Except.ok v
  else
    match relocateRange tr cf mf mv v.elems with
    | Except.error es => Except.error ⟨es, v.cap⟩
    | Except.ok relocated => Except.ok ⟨relocated, newCapacity⟩

/-- Fallible `Vector(const Vector& other)`: copy-constructs each source
element in order into a block of capacity `other.size_`; on failure the
constructed elements are destroyed and the block released (`Except.error ()`),
with no vector produced. -/
def copyCtorF (cf : α → Bool) (other : Vector α) : Except Unit (Vector α) :=
  match uninitializedCopyN cf other.elems with
  | none => Except.error ()
  | some copied => Except.ok ⟨copied, other.elems.length⟩

/-- The assignment loop `for (i = 0; i < min(rhs.size_, size_); ++i)
data_[i] = rhs.data_[i];` — copy-assigns source values into the destination
slots in order.  On a throw at step `i`, slots `[0, i)` already hold the
assigned values; the error carries the destination list at that point. -/
def assignLoop (af : α → Bool) : List α → List α → Except (List α) (List α)
  | [], _ => Except.ok []
  | ds, [] => Except.ok ds
  | d :: ds, s :: ss =>
    if af s then Except.error (d :: ds)
    else
      match assignLoop af ds ss with
      | Except.error rest => Except.error (s :: rest)
      | Except.ok rest => Except.ok (s :: rest)

/-- Fallible `operator=(const Vector& rhs)` for `this != &rhs`.
Regrow path (`rhs.size_ > data_.Capacity()`): builds the temporary
`Vector rhs_copy(rhs)`; a throw there leaves `*this` untouched.
In-place path: runs the assignment loop over the overlapping prefix (a throw
mid-loop leaves the already-assigned slots overwritten, `size_` unchanged),
then destroys the surplus tail or copy-constructs the missing tail
(`std::uninitialized_copy_n`, which unwinds only its own constructions),
then `size_ = rhs.size_`. -/
def copyAssignF (cf af : α → Bool) (v rhs : Vector α) :
    Except (Vector α) (Vector α) :=
  if rhs.elems.length > v.cap then
    match copyCtorF cf rhs with
    | Except.error _ => Except.error v
    | Except.ok rhsCopy => Except.ok ⟨rhsCopy.elems, rhsCopy.cap⟩
  else
    match assignLoop af v.elems rhs.elems with
    | Except.error cur => Except.error ⟨cur, v.cap⟩
    | Except.ok assigned =>
      if rhs.elems.length < v.elems.length then
        Except.ok ⟨assigned.take rhs.elems.length, v.cap⟩
      else
        match uninitializedCopyN cf (rhs.elems.drop v.elems.length) with
        | none => Except.error ⟨assigned, v.cap⟩
        | some tail => Except.ok ⟨assigned ++ tail, v.cap⟩

/-- Fallible `EmplaceNoCapacity(index, args...)` with the new element
copy-constructed from `x` (as in `Insert(position, const T& value)`): the new
element is constructed into the new block's slot `index` first, then the
prefix and the suffix are relocated around it; every fallible step happens
before `data_` or `size_` is touched, and the new block is released during
unwinding, so a throw leaves the old storage installed with its elements in
whatever state the failed batch left them (untouched for copy relocation; a
moved-from prefix for a failed move batch, after a fully moved-from prefix
range when the prefix batch had already completed). -/
def emplaceNoCapacityF (tr : Traits) (cf mf : α → Bool) (mv : α → α)
    (v : Vector α) (index : Nat) (x : α) : Except (Vector α) (Vector α) :=
  if cf x then Except.error v
  else
    match relocateRange tr cf mf mv (v.elems.take index) with
    | Except.error es => Except.error ⟨es ++ v.elems.drop index, v.cap⟩
    | Except.ok pre =>
      match relocateRange tr cf mf mv (v.elems.drop index) with
      | Except.error es =>
        Except.error ⟨relocResidue tr mv (v.elems.take index) ++ es, v.cap⟩
      | Except.ok suf =>
        Except.ok ⟨pre ++ [x] ++ suf, if v.cap = 0 then 1 else v.elems.length * 2⟩

/-- Fallible `EmplaceEnoughtCapacity(index, args...)` (requires
`size_ < Capacity()` and `index < size_`) with the new element built by
copy-constructing the temporary `T(std::forward<Args>(args)...)` from `x`
(as in `Insert(position, const T& value)`), move construction/assignment
non-throwing.  Statement order: (1) move-construct the last element into
slot `size_`; (2) `std::move_backward` shifts `[index, size_ - 1)` one slot
right, leaving slot `index` holding a moved-from residue; (3) build the
temporary from `x` — if this throws, `size_` has not been incremented, so
the live range `[0, size_)` holds the shifted arrangement with the residue
at slot `index` (the relocated last element at slot `size_` sits outside the
live range); (4) move-assign the temporary into slot `index`; (5) `++size_`.
The `getD` fallback is never reached under the precondition `index < size_`. -/
def emplaceEnoughtCapacityF (cf : α → Bool) (mv : α → α) (v : Vector α)
    (index : Nat) (x : α) : Except (Vector α) (Vector α) :=
  if cf x then
    Except.error
      ⟨v.elems.take index ++ [mv (v.elems.getD index x)] ++
        (v.elems.drop index).dropLast, v.cap⟩
  else
    Except.ok ⟨v.elems.take index ++ [x] ++ v.elems.drop index, v.cap⟩

/-- Fallible `Emplace(position, args...)` with `index = position - begin()`
and the new element built by copying `x`: dispatches exactly as the source. -/
def emplaceF (tr : Traits) (cf mf : α → Bool) (mv : α → α) (v : Vector α)
    (index : Nat) (x : α) : Except (Vector α) (Vector α) :=
  if index = v.elems.length then
    emplaceBackF tr cf mf mv v x
  else if v.elems.length < v.cap then
    emplaceEnoughtCapacityF cf mv v index x
  else
    emplaceNoCapacityF tr cf mf mv v index x

/-! ### Helper lemmas -/

theorem uninitializedCopyN_of_no_fail (cf : α → Bool) (src : List α)
    (h : ∀ a ∈ src, cf a = false) : uninitializedCopyN cf src = some src := by
  induction src with
  | nil => rfl
  | cons a as ih =>
    have ha : cf a = false := h a (List.mem_cons_self a as)
    have has : ∀ b ∈ as, cf b = false := fun b hb => h b (List.mem_cons_of_mem a hb)
    simp [uninitializedCopyN, ha, ih has]

theorem uninitializedCopyN_of_fail (cf : α → Bool) (src : List α)
    (h : ∃ a ∈ src, cf a = true) : uninitializedCopyN cf src = none := by
  induction src with
  | nil => simp at h
  | cons a as ih =>
    by_cases ha : cf a = true
    · simp [uninitializedCopyN, ha]
    · have : ∃ b ∈ as, cf b = true := by
        rcases h with ⟨b, hb, hfb⟩
        rcases List.mem_cons.mp hb with h1 | h2
        · exact absurd (h1 ▸ hfb) ha
        · exact ⟨b, h2, hfb⟩
      simp [uninitializedCopyN, ih this]

theorem assignLoop_ok_length (af : α → Bool) (ds ss l : List α)
    (h : assignLoop af ds ss = Except.ok l) : l.length = ds.length := by
  induction ds generalizing ss l with
  | nil =>
    cases ss <;> simp [assignLoop] at h <;> simp [← h]
  | cons d ds ih =>
    cases ss with
    | nil =>
      simp [assignLoop] at h
      simp [← h]
    | cons s ss =>
      by_cases hf : af s = true
      · simp [assignLoop, hf] at h
      · simp only [assignLoop, hf, Bool.false_eq_true, if_false] at h
        cases hrec : assignLoop af ds ss with
        | error rest => rw [hrec] at h; cases h
        | ok rest =>
          rw [hrec] at h
          cases h
          simp [ih ss rest hrec]

theorem assignLoop_error_length (af : α → Bool) (ds ss l : List α)
    (h : assignLoop af ds ss = Except.error l) : l.length = ds.length := by
  induction ds generalizing ss l with
  | nil => cases ss <;> simp [assignLoop] at h
  | cons d ds ih =>
    cases ss with
    | nil => simp [assignLoop] at h
    | cons s ss =>
      by_cases hf : af s = true
      · simp [assignLoop, hf] at h
        simp [← h]
      · simp only [assignLoop, hf, Bool.false_eq_true, if_false] at h
        cases hrec : assignLoop af ds ss with
        | error rest =>
          rw [hrec] at h
          cases h
          simp [ih ss rest hrec]
        | ok rest => rw [hrec] at h; cases h

theorem uninitializedMoveN_of_no_fail (mf : α → Bool) (mv : α → α) (src : List α)
    (h : ∀ a ∈ src, mf a = false) : uninitializedMoveN mf mv src = Except.ok src := by
  induction src with
  | nil => rfl
  | cons a as ih =>
    have ha : mf a = false := h a (List.mem_cons_self a as)
    have has : ∀ b ∈ as, mf b = false := fun b hb => h b (List.mem_cons_of_mem a hb)
    simp [uninitializedMoveN, ha, ih has]

theorem uninitializedMoveN_error_length (mf : α → Bool) (mv : α → α)
    (src es : List α) (h : uninitializedMoveN mf mv src = Except.error es) :
    es.length = src.length := by
  induction src generalizing es with
  | nil => simp [uninitializedMoveN] at h
  | cons a as ih =>
    by_cases ha : mf a = true
    · simp [uninitializedMoveN, ha] at h
      simp [← h]
    · simp only [uninitializedMoveN, ha, Bool.false_eq_true, if_false] at h
      cases hr : uninitializedMoveN mf mv as with
      | error rest =>
        simp only [hr] at h
        cases h
        simp [ih rest hr]
      | ok moved =>
        simp only [hr] at h
        exact Except.noConfusion h

theorem relocateRange_error_length (tr : Traits) (cf mf : α → Bool) (mv : α → α)
    (src es : List α) (h : relocateRange tr cf mf mv src = Except.error es) :
    es.length = src.length := by
  unfold relocateRange at h
  split at h
  · exact uninitializedMoveN_error_length mf mv src es h
  · cases hc : uninitializedCopyN cf src with
    | none =>
      simp only [hc] at h
      rw [(Except.error.inj h).symm]
    | some l =>
      simp only [hc] at h
      exact Except.noConfusion h

theorem relocateRange_ok_of_nothrow_move (tr : Traits) (cf mf : α → Bool)
    (mv : α → α) (src : List α)
    (hn : tr.nothrowMoveConstructible = true → ∀ a, mf a = false)
    (hcc : tr.nothrowMoveConstructible = true ∨ tr.copyConstructible = true)
    (hm : tr.useMove = true) : relocateRange tr cf mf mv src = Except.ok src := by
  have hnm : tr.nothrowMoveConstructible = true := by
    cases hcc with
    | inl h => exact h
    | inr h =>
      by_contra hne
      have hf : tr.nothrowMoveConstructible = false := by
        cases hb : tr.nothrowMoveConstructible
        · rfl
        · exact absurd hb hne
      unfold Traits.useMove at hm
      rw [hf, h] at hm
      simp at hm
  unfold relocateRange
  rw [if_pos hm]
  exact uninitializedMoveN_of_no_fail mf mv src (fun a _ => hn hnm a)

theorem relocateRange_error_src (tr : Traits) (cf mf : α → Bool) (mv : α → α)
    (hn : tr.nothrowMoveConstructible = true → ∀ a, mf a = false)
    (hcc : tr.nothrowMoveConstructible = true ∨ tr.copyConstructible = true)
    (src es : List α) (h : relocateRange tr cf mf mv src = Except.error es) :
    es = src := by
  by_cases hm : tr.useMove = true
  · rw [relocateRange_ok_of_nothrow_move tr cf mf mv src hn hcc hm] at h
    exact Except.noConfusion h
  · have hm' : ¬ tr.useMove = true := hm
    unfold relocateRange at h
    rw [if_neg hm'] at h
    cases hc : uninitializedCopyN cf src with
    | none =>
      simp only [hc] at h
      exact (Except.error.inj h).symm
    | some l =>
      simp only [hc] at h
      exact Except.noConfusion h

theorem relocResidue_length (tr : Traits) (mv : α → α) (src : List α) :
    (relocResidue tr mv src).length = src.length := by
  unfold relocResidue
  split <;> simp

theorem copyAssign_eq (v rhs : Vector α) :
    copyAssign v rhs =
      ⟨rhs.elems, if rhs.elems.length > v.cap then rhs.elems.length else v.cap⟩ := by
  unfold copyAssign copyCtor
  by_cases hgt : rhs.elems.length > v.cap
  · simp [hgt]
  · simp only [hgt, if_false]
    by_cases hlt : rhs.elems.length < v.elems.length
    · have hm : min rhs.elems.length v.elems.length = rhs.elems.length :=
        Nat.min_eq_left (Nat.le_of_lt hlt)
      simp only [hlt, if_true, hm, List.take_length]
      congr 1
      rw [List.take_left]
    · have hm : min rhs.elems.length v.elems.length = v.elems.length :=
        Nat.min_eq_right (Nat.le_of_not_lt hlt)
      simp only [hlt, if_false, hm, List.drop_length, List.append_nil]
      congr 1
      rw [List.take_take, Nat.min_self, List.take_append_drop]

theorem emplaceBack_elems (v : Vector α) (x : α) :
    (emplaceBack v x).elems = v.elems ++ [x] := by
  unfold emplaceBack
  split <;> rfl

/-! ### Claim theorems -/

/-- C1: after each append (`PushBack`/`EmplaceBack`), `size_` increases by
exactly 1, the appended element holds the given value and occupies the last
slot (index `size - 1`), and every previously inserted element's value is
unchanged at its prior position. -/
theorem append_preserves_and_extends (v : Vector α) (x : α) :
    (emplaceBack v x).size = v.size + 1 ∧
    (emplaceBack v x).elems = v.elems ++ [x] ∧
    (emplaceBack v x).elems[(emplaceBack v x).size - 1]? = some x ∧
    pushBack v x = emplaceBack v x ∧
    (∀ i, i < v.size → (emplaceBack v x).elems[i]? = v.elems[i]?) := by
  have he := emplaceBack_elems v x
  refine ⟨?_, he, ?_, rfl, ?_⟩
  · simp [size, he]
  · simp only [size, he, List.length_append, List.length_singleton,
      Nat.add_sub_cancel]
    exact List.getElem?_concat_length v.elems x
  · intro i hi
    rw [he, List.getElem?_append_left hi]

/-- C1 witness: appending 30 to a vector holding 10, 20 leaves the element at
index 0 unchanged. -/
theorem append_preserves_and_extends_wit :
    (emplaceBack (⟨[10, 20], 2⟩ : Vector Nat) 30).elems[0]? =
      (⟨[10, 20], 2⟩ : Vector Nat).elems[0]? :=
  (append_preserves_and_extends (⟨[10, 20], 2⟩ : Vector Nat) 30).2.2.2.2 0 (by decide)

/-- C3: when an append or a positional insert needs more room than the
current capacity provides (`size_ == Capacity()`), the newly acquired
capacity is `Capacity() == 0 ? 1 : size_ * 2 = max(1, size * 2)`; appending
1..5 to an empty vector yields the capacity sequence 1, 2, 4, 4, 8. -/
theorem growth_policy (v : Vector α) (x : α) (index : Nat) :
    (v.size = v.capacity → (emplaceBack v x).capacity = max 1 (v.size * 2)) ∧
    (v.size = v.capacity →
      (emplaceNoCapacity v index x).capacity = max 1 (v.size * 2)) ∧
    (let w1 := emplaceBack (emptyVec : Vector Nat) 1
     let w2 := emplaceBack w1 2
     let w3 := emplaceBack w2 3
     let w4 := emplaceBack w3 4
     let w5 := emplaceBack w4 5
     [w1.capacity, w2.capacity, w3.capacity, w4.capacity, w5.capacity] =
       [1, 2, 4, 4, 8]) := by
  refine ⟨?_, ?_, by decide⟩
  · intro h
    simp only [size, capacity] at h ⊢
    unfold emplaceBack
    rw [if_pos h]
    rcases Nat.eq_zero_or_pos v.cap with h0 | hpos
    · simp [h0, h, h0 ▸ h]
    · have : v.cap ≠ 0 := Nat.pos_iff_ne_zero.mp hpos
      simp only [this, if_false]
      omega
  · intro h
    simp only [size, capacity] at h ⊢
    unfold emplaceNoCapacity
    rcases Nat.eq_zero_or_pos v.cap with h0 | hpos
    · simp [h0, h, h0 ▸ h]
    · have : v.cap ≠ 0 := Nat.pos_iff_ne_zero.mp hpos
      simp only [this, if_false]
      omega

/-- C3 witness: a full one-element vector of capacity 1 grows to capacity
`max(1, 1 * 2) = 2` on append. -/
theorem growth_policy_wit :
    (emplaceBack (⟨[5], 1⟩ : Vector Nat) 6).capacity =
      max 1 ((⟨[5], 1⟩ : Vector Nat).size * 2) :=
  (growth_policy (⟨[5], 1⟩ : Vector Nat) 6 0).1 rfl

/-- C10: `EmplaceBack` returns a reference to the element it just appended —
the slot `size_ - 1` of the updated vector holds the constructed value `x`,
and that slot's index equals the pre-call size, in both the
sufficient-capacity path and the reallocation path. -/
theorem emplaceBack_returns_appended (v : Vector α) (x : α) :
    emplaceBackRet v x = some x ∧ (emplaceBack v x).size - 1 = v.size := by
  have he := emplaceBack_elems v x
  have hs : (emplaceBack v x).size = v.size + 1 := by simp [size, he]
  constructor
  · unfold emplaceBackRet
    rw [hs, Nat.add_sub_cancel, he]
    show (v.elems ++ [x])[v.elems.length]? = some x
    exact List.getElem?_concat_length v.elems x
  · rw [hs, Nat.add_sub_cancel]

/-- C7: `Reserve(n)` with `n <= Capacity()` is a no-op; with `n > Capacity()`
it sets the capacity to exactly `n` and leaves the size and every element's
value and order unchanged. -/
theorem reserve_contract (v : Vector α) (n : Nat) :
    (n ≤ v.capacity → reserve v n = v) ∧
    (v.capacity < n →
      (reserve v n).capacity = n ∧
      (reserve v n).elems = v.elems ∧
      (reserve v n).size = v.size) := by
  simp only [capacity]
  constructor
  · intro h
    unfold reserve
    rw [if_pos h]
  · intro h
    unfold reserve size
    rw [if_neg (Nat.not_le_of_lt h)]
    exact ⟨rfl, rfl, rfl⟩

/-- C7 witness: reserving 5 slots on a vector of capacity 2 yields capacity
exactly 5 with the elements untouched. -/
theorem reserve_contract_wit :
    (reserve (⟨[1, 2], 2⟩ : Vector Nat) 5).capacity = 5 ∧
    (reserve (⟨[1, 2], 2⟩ : Vector Nat) 5).elems = [1, 2] ∧
    (reserve (⟨[1, 2], 2⟩ : Vector Nat) 5).size = (⟨[1, 2], 2⟩ : Vector Nat).size :=
  (reserve_contract (⟨[1, 2], 2⟩ : Vector Nat) 5).2 (by decide)

/-- C5 counterexample: move assignment swaps the two containers, so with a
non-empty destination `[5]` and source `[7]`, the moved-from source is left
holding `[5]` — its size is 1, not 0, refuting the claim that the source's
size is 0 after every move assignment. -/
theorem moveAssign_source_not_empty_cex :
    ((moveAssign (⟨[5], 1⟩ : Vector Nat) ⟨[7], 1⟩).2).size ≠ 0 := by
  decide

/-- C5 amended: after move construction the source is empty (size 0) and
reusable; after move assignment the source holds the destination's former
contents (the two are swapped), so its size is the destination's old size —
0 only when the destination was empty — and it remains valid and reusable:
further appends behave normally. -/
theorem move_leaves_source_valid (src dst : Vector α) (x : α) :
    (moveCtor src).1 = src ∧
    (moveCtor src).2 = emptyVec ∧
    (moveCtor src).2.size = 0 ∧
    moveAssign dst src = (src, dst) ∧
    (emplaceBack (moveCtor src).2 x).elems = [x] ∧
    (emplaceBack (moveAssign dst src).2 x).elems = dst.elems ++ [x] := by
  refine ⟨rfl, rfl, rfl, rfl, rfl, ?_⟩
  exact emplaceBack_elems dst x

/-- C6: inserting `x` at position 1 of a container holding `[a, b, c]`
yields `[a, x, b, c]` with size 4 (whether the insert relocates or shifts in
place), and erasing position 1 of the result restores `[a, b, c]` with
size 3. -/
theorem insert_erase_round_trip (a b c x : α) (cap : Nat) (h : 3 ≤ cap) :
    (emplace ⟨[a, b, c], cap⟩ 1 x).elems = [a, x, b, c] ∧
    (emplace ⟨[a, b, c], cap⟩ 1 x).size = 4 ∧
    (erase (emplace ⟨[a, b, c], cap⟩ 1 x) 1).elems = [a, b, c] ∧
    (erase (emplace ⟨[a, b, c], cap⟩ 1 x) 1).size = 3 := by
  have h13 : (1 : Nat) ≠ ([a, b, c] : List α).length := by simp
  by_cases hc : (3 : Nat) < cap
  · simp [emplace, h13, hc, emplaceEnoughtCapacity, erase, size]
  · simp [emplace, h13, hc, emplaceNoCapacity, erase, size]

/-- C6 witness: the round trip on the concrete container `[1, 2, 3]` of
capacity 3 with inserted value 9. -/
theorem insert_erase_round_trip_wit :
    (emplace (⟨[1, 2, 3], 3⟩ : Vector Nat) 1 9).elems = [1, 9, 2, 3] ∧
    (emplace (⟨[1, 2, 3], 3⟩ : Vector Nat) 1 9).size = 4 ∧
    (erase (emplace (⟨[1, 2, 3], 3⟩ : Vector Nat) 1 9) 1).elems = [1, 2, 3] ∧
    (erase (emplace (⟨[1, 2, 3], 3⟩ : Vector Nat) 1 9) 1).size = 3 :=
  insert_erase_round_trip 1 2 3 9 3 (by decide)

/-- C9: self-assignment is a no-op.  The `if (this != &rhs)` guard makes
`v = v` and `v = std::move(v)` leave the object untouched; additionally, even
the unguarded copy-assignment body maps a well-formed vector to itself. -/
theorem self_assignment_noop (v : Vector α) :
    copyAssignOp v v true = v ∧
    (moveAssignOp v v true).1 = v ∧
    (v.Wf → copyAssign v v = v) := by
  refine ⟨rfl, rfl, ?_⟩
  intro hwf
  rw [copyAssign_eq]
  have : ¬ v.elems.length > v.cap := Nat.not_lt_of_le hwf
  simp only [this, if_false]

/-- C9 witness: self-assignment on the concrete well-formed vector `[3]` with
capacity 2. -/
theorem self_assignment_noop_wit :
    copyAssign (⟨[3], 2⟩ : Vector Nat) ⟨[3], 2⟩ = ⟨[3], 2⟩ :=
  (self_assignment_noop (⟨[3], 2⟩ : Vector Nat)).2.2 (by decide)

/-- C2 counterexample: the claim fails on three of the operation paths it
covers, each at a concrete input.  (1) In-place copy assignment: assigning
`[8, 9]` over `[1, 2]` (source size within capacity, storage reused) with
the copy assignment from the value 9 throwing fails after slot 0 was already
overwritten, leaving `[8, 2]`, not `[1, 2]`.  (2) In-place positional
insert: inserting 9 at position 1 of `[1, 2, 3]` (size 3 < capacity 4, so
`Emplace` takes the sufficient-capacity path) with the copy construction of
the temporary `T(9)` throwing fails after the shift, leaving the live range
`[1, 0, 2]` (0 being the moved-from residue at the insertion slot).
(3) Move construction failure during relocation: for a non-copy-constructible
type with a throwing move constructor the dispatch still selects moving, and
`Reserve(4)` on `[1, 2]` with the move of the value 2 throwing leaves
`[0, 2]` — the first element already moved-from.  In each scenario the
container's elements after the failed call differ from their values
immediately before it. -/
theorem strong_guarantee_cex :
    (copyAssignF (fun _ => false) (fun a => a == 9)
        (⟨[1, 2], 2⟩ : Vector Nat) ⟨[8, 9], 2⟩ = Except.error ⟨[8, 2], 2⟩ ∧
      (⟨[8, 2], 2⟩ : Vector Nat) ≠ ⟨[1, 2], 2⟩) ∧
    (emplaceF ⟨true, true⟩ (fun a => a == 9) (fun _ => false) (fun _ => 0)
        (⟨[1, 2, 3], 4⟩ : Vector Nat) 1 9 = Except.error ⟨[1, 0, 2], 4⟩ ∧
      (⟨[1, 0, 2], 4⟩ : Vector Nat) ≠ ⟨[1, 2, 3], 4⟩) ∧
    (reserveF ⟨false, false⟩ (fun _ => false) (fun a => a == 2) (fun _ => 0)
        (⟨[1, 2], 2⟩ : Vector Nat) 4 = Except.error ⟨[0, 2], 2⟩ ∧
      (⟨[0, 2], 2⟩ : Vector Nat) ≠ ⟨[1, 2], 2⟩) := by
  exact ⟨⟨rfl, by decide⟩, ⟨rfl, by decide⟩, ⟨rfl, by decide⟩⟩

/-- C2 amended: when a per-element copy construction, copy assignment, or
move construction fails mid-operation, the relocation-based operations --
append (`EmplaceBack`, both paths), `Reserve`, copy assignment on its regrow
path, and positional insert on its regrow path (`EmplaceNoCapacity`) -- leave
the container's size, capacity and every element exactly as before the call
(strong guarantee), with partially-constructed new storage fully unwound,
provided the element type is nothrow-move-constructible or copy-constructible;
for a non-copy-constructible type with a throwing move constructor a failed
relocation still preserves size and capacity but can leave a moved-from
prefix, and the in-place paths -- copy assignment reusing existing storage,
and positional insert with spare capacity -- guarantee only that size and
capacity are unchanged, element values possibly already altered. -/
theorem strong_guarantee_relocation (tr : Traits) (cf af mf : α → Bool)
    (mv : α → α)
    (hn : tr.nothrowMoveConstructible = true → ∀ a, mf a = false)
    (hcc : tr.nothrowMoveConstructible = true ∨ tr.copyConstructible = true) :
    (∀ (v : Vector α) (x : α) (w : Vector α),
        emplaceBackF tr cf mf mv v x = Except.error w → w = v) ∧
    (∀ (v : Vector α) (n : Nat) (w : Vector α),
        reserveF tr cf mf mv v n = Except.error w → w = v) ∧
    (∀ (v rhs w : Vector α), rhs.elems.length > v.cap →
        copyAssignF cf af v rhs = Except.error w → w = v) ∧
    (∀ (v : Vector α) (index : Nat) (x : α) (w : Vector α),
        emplaceNoCapacityF tr cf mf mv v index x = Except.error w → w = v) ∧
    (∀ (v rhs w : Vector α),
        copyAssignF cf af v rhs = Except.error w →
          w.cap = v.cap ∧ w.elems.length = v.elems.length) ∧
    (∀ (v : Vector α) (index : Nat) (x : α) (w : Vector α), index < v.size →
        emplaceEnoughtCapacityF cf mv v index x = Except.error w →
          w.cap = v.cap ∧ w.elems.length = v.elems.length) ∧
    (∀ (tr' : Traits) (mf' : α → Bool) (mv' : α → α) (v : Vector α) (n : Nat)
        (w : Vector α), reserveF tr' cf mf' mv' v n = Except.error w →
          w.cap = v.cap ∧ w.elems.length = v.elems.length) ∧
    (∀ (tr' : Traits) (mf' : α → Bool) (mv' : α → α) (v : Vector α) (x : α)
        (w : Vector α), emplaceBackF tr' cf mf' mv' v x = Except.error w →
          w.cap = v.cap ∧ w.elems.length = v.elems.length) ∧
    (∀ (tr' : Traits) (mf' : α → Bool) (mv' : α → α) (v : Vector α)
        (index : Nat) (x : α) (w : Vector α),
        emplaceNoCapacityF tr' cf mf' mv' v index x = Except.error w →
          w.cap = v.cap ∧ w.elems.length = v.elems.length) := by
  refine ⟨?_, ?_, ?_, ?_, ?_, ?_, ?_, ?_, ?_⟩
  · intro v x w h
    unfold emplaceBackF at h
    split at h
    · split at h
      · exact (Except.error.inj h).symm
      · cases hr : relocateRange tr cf mf mv v.elems with
        | error es =>
          simp only [hr] at h
          have hes := relocateRange_error_src tr cf mf mv hn hcc v.elems es hr
          rw [← Except.error.inj h, hes]
        | ok l =>
          simp only [hr] at h
          exact Except.noConfusion h
    · split at h
      · exact (Except.error.inj h).symm
      · exact Except.noConfusion h
  · intro v n w h
    unfold reserveF at h
    split at h
    · exact Except.noConfusion h
    · cases hr : relocateRange tr cf mf mv v.elems with
      | error es =>
        simp only [hr] at h
        have hes := relocateRange_error_src tr cf mf mv hn hcc v.elems es hr
        rw [← Except.error.inj h, hes]
      | ok l =>
        simp only [hr] at h
        exact Except.noConfusion h
  · intro v rhs w hgt h
    unfold copyAssignF at h
    rw [if_pos hgt] at h
    cases hc : copyCtorF cf rhs with
    | error u =>
      simp only [hc] at h
      exact (Except.error.inj h).symm
    | ok rc =>
      simp only [hc] at h
      exact Except.noConfusion h
  · intro v index x w h
    unfold emplaceNoCapacityF at h
    split at h
    · exact (Except.error.inj h).symm
    · cases h1 : relocateRange tr cf mf mv (v.elems.take index) with
      | error es =>
        simp only [h1] at h
        have hes := relocateRange_error_src tr cf mf mv hn hcc _ es h1
        rw [← Except.error.inj h, hes, List.take_append_drop]
      | ok pre =>
        simp only [h1] at h
        cases h2 : relocateRange tr cf mf mv (v.elems.drop index) with
        | error es =>
          by_cases hm : tr.useMove = true
          · rw [relocateRange_ok_of_nothrow_move tr cf mf mv _ hn hcc hm] at h2
            exact Except.noConfusion h2
          · have hes := relocateRange_error_src tr cf mf mv hn hcc _ es h2
            simp only [h2] at h
            rw [← Except.error.inj h]
            unfold relocResidue
            rw [if_neg hm, hes, List.take_append_drop]
        | ok suf =>
          simp only [h2] at h
          exact Except.noConfusion h
  · intro v rhs w h
    unfold copyAssignF at h
    by_cases hgt : rhs.elems.length > v.cap
    · rw [if_pos hgt] at h
      cases hc : copyCtorF cf rhs with
      | error u =>
        simp only [hc] at h
        have hw := (Except.error.inj h).symm
        subst hw
        exact ⟨rfl, rfl⟩
      | ok rc =>
        simp only [hc] at h
        exact Except.noConfusion h
    · rw [if_neg hgt] at h
      cases ha : assignLoop af v.elems rhs.elems with
      | error cur =>
        simp only [ha] at h
        have hw := (Except.error.inj h).symm
        subst hw
        exact ⟨rfl, assignLoop_error_length af v.elems rhs.elems cur ha⟩
      | ok assigned =>
        simp only [ha] at h
        by_cases hlt : rhs.elems.length < v.elems.length
        · rw [if_pos hlt] at h
          exact Except.noConfusion h
        · rw [if_neg hlt] at h
          cases hu : uninitializedCopyN cf (rhs.elems.drop v.elems.length) with
          | none =>
            simp only [hu] at h
            have hw := (Except.error.inj h).symm
            subst hw
            exact ⟨rfl, assignLoop_ok_length af v.elems rhs.elems assigned ha⟩
          | some tail =>
            simp only [hu] at h
            exact Except.noConfusion h
  · intro v index x w hidx h
    unfold emplaceEnoughtCapacityF at h
    split at h
    · have hw := (Except.error.inj h).symm
      subst hw
      refine ⟨rfl, ?_⟩
      simp only [size] at hidx
      simp
      omega
    · exact Except.noConfusion h
  · intro tr' mf' mv' v n w h
    unfold reserveF at h
    split at h
    · exact Except.noConfusion h
    · cases hr : relocateRange tr' cf mf' mv' v.elems with
      | error es =>
        simp only [hr] at h
        have hl := relocateRange_error_length tr' cf mf' mv' v.elems es hr
        have hw := (Except.error.inj h).symm
        subst hw
        exact ⟨rfl, hl⟩
      | ok l =>
        simp only [hr] at h
        exact Except.noConfusion h
  · intro tr' mf' mv' v x w h
    unfold emplaceBackF at h
    split at h
    · split at h
      · have hw := (Except.error.inj h).symm
        subst hw
        exact ⟨rfl, rfl⟩
      · cases hr : relocateRange tr' cf mf' mv' v.elems with
        | error es =>
          simp only [hr] at h
          have hl := relocateRange_error_length tr' cf mf' mv' v.elems es hr
          have hw := (Except.error.inj h).symm
          subst hw
          exact ⟨rfl, hl⟩
        | ok l =>
          simp only [hr] at h
          exact Except.noConfusion h
    · split at h
      · have hw := (Except.error.inj h).symm
        subst hw
        exact ⟨rfl, rfl⟩
      · exact Except.noConfusion h
  · intro tr' mf' mv' v index x w h
    unfold emplaceNoCapacityF at h
    split at h
    · have hw := (Except.error.inj h).symm
      subst hw
      exact ⟨rfl, rfl⟩
    · cases h1 : relocateRange tr' cf mf' mv' (v.elems.take index) with
      | error es =>
        simp only [h1] at h
        have hl := relocateRange_error_length tr' cf mf' mv' _ es h1
        have hw := (Except.error.inj h).symm
        subst hw
        refine ⟨rfl, ?_⟩
        simp [hl]
        omega
      | ok pre =>
        simp only [h1] at h
        cases h2 : relocateRange tr' cf mf' mv' (v.elems.drop index) with
        | error es =>
          simp only [h2] at h
          have hl := relocateRange_error_length tr' cf mf' mv' _ es h2
          have hw := (Except.error.inj h).symm
          subst hw
          refine ⟨rfl, ?_⟩
          simp [hl, relocResidue_length]
          omega
        | ok suf =>
          simp only [h2] at h
          exact Except.noConfusion h

/-- C2 amended witness: the failed in-place assignment of the counterexample
scenario indeed preserves size and capacity (nothrow-movable copyable
element type, moves never failing). -/
theorem strong_guarantee_relocation_wit :
    (⟨[8, 2], 2⟩ : Vector Nat).cap = (⟨[1, 2], 2⟩ : Vector Nat).cap ∧
    (⟨[8, 2], 2⟩ : Vector Nat).elems.length =
      (⟨[1, 2], 2⟩ : Vector Nat).elems.length :=
  (strong_guarantee_relocation ⟨true, true⟩ (fun _ => false) (fun a => a == 9)
      (fun _ => false) (fun a => a) (fun _ a => rfl) (Or.inl rfl)).2.2.2.2.1
    ⟨[1, 2], 2⟩ ⟨[8, 9], 2⟩ ⟨[8, 2], 2⟩ (by rfl)

/-- C4: every relocation of live elements into new storage (growth during
append, growth during positional insert, `Reserve`) picks its strategy per
call by the trait condition `is_nothrow_move_constructible || !is_copy_constructible`:
when it holds the batch move-constructs each element into the new slots in
order (`std::uninitialized_move_n` -- value-preserving and, whenever no move
construction throws, hence always for a type whose move cannot fail,
succeeding), and the old elements are destroyed afterwards; otherwise the
batch copy-constructs each element in order, the originals staying untouched
until every copy succeeds -- a failing copy leaves them exactly as they were,
`Reserve` keeping the old storage unchanged -- and only then are the
originals destroyed. -/
theorem relocation_strategy (tr : Traits) (cf mf : α → Bool) (mv : α → α) :
    tr.useMove = (tr.nothrowMoveConstructible || !tr.copyConstructible) ∧
    (∀ src : List α, tr.useMove = true →
        relocateRange tr cf mf mv src = uninitializedMoveN mf mv src) ∧
    (∀ src : List α, tr.useMove = true → (∀ a ∈ src, mf a = false) →
        relocateRange tr cf mf mv src = Except.ok src) ∧
    (∀ src : List α, tr.useMove = false → (∀ a ∈ src, cf a = false) →
        relocateRange tr cf mf mv src = Except.ok src) ∧
    (∀ src : List α, tr.useMove = false → (∃ a ∈ src, cf a = true) →
        relocateRange tr cf mf mv src = Except.error src) ∧
    (∀ (v : Vector α) (n : Nat), v.cap < n → tr.useMove = true →
        (∀ a ∈ v.elems, mf a = false) →
        reserveF tr cf mf mv v n = Except.ok ⟨v.elems, n⟩) ∧
    (∀ (v : Vector α) (n : Nat), v.cap < n → tr.useMove = false →
        (∃ a ∈ v.elems, cf a = true) →
        reserveF tr cf mf mv v n = Except.error v) := by
  refine ⟨rfl, ?_, ?_, ?_, ?_, ?_, ?_⟩
  · intro src hm
    unfold relocateRange
    rw [if_pos hm]
  · intro src hm hok
    unfold relocateRange
    rw [if_pos hm]
    exact uninitializedMoveN_of_no_fail mf mv src hok
  · intro src hm hok
    unfold relocateRange
    rw [if_neg (by simp [hm])]
    rw [uninitializedCopyN_of_no_fail cf src hok]
  · intro src hm hbad
    unfold relocateRange
    rw [if_neg (by simp [hm])]
    rw [uninitializedCopyN_of_fail cf src hbad]
  · intro v n hn hm hok
    unfold reserveF
    rw [if_neg (Nat.not_le_of_lt hn)]
    unfold relocateRange
    rw [if_pos hm]
    rw [uninitializedMoveN_of_no_fail mf mv v.elems hok]
  · intro v n hn hm hbad
    unfold reserveF
    rw [if_neg (Nat.not_le_of_lt hn)]
    unfold relocateRange
    rw [if_neg (by simp [hm])]
    rw [uninitializedCopyN_of_fail cf v.elems hbad]

/-- C4 witness: for a copy-constructible type with a throwing move
constructor (copy relocation selected) and an element whose copy throws,
`Reserve` growth fails with the container left exactly as it was. -/
theorem relocation_strategy_wit :
    reserveF ⟨false, true⟩ (fun a => a == 7) (fun _ => false) (fun a => a)
        (⟨[7], 1⟩ : Vector Nat) 3 = Except.error ⟨[7], 1⟩ :=
  (relocation_strategy ⟨false, true⟩ (fun a => a == 7) (fun _ => false)
      (fun a => a)).2.2.2.2.2.2 ⟨[7], 1⟩ 3 (by decide) rfl ⟨7, by decide, rfl⟩

/-- C8: every operation preserves the class invariant `0 <= size_ <= capacity`
(live constructed elements exactly in slots `[0, size)`, raw memory beyond —
which is what the representation encodes): it holds after construction
(default, sized, copy, move), assignment (copy and move), append, pop,
insert, erase, `Reserve`, `Resize` and `Swap`, whenever it held before. -/
theorem invariant_preserved (d x : α) (v rhs : Vector α) (n index dist : Nat) :
    (emptyVec : Vector α).Wf ∧
    (sizedCtor d n).Wf ∧
    (copyCtor v).Wf ∧
    (v.Wf → (moveCtor v).1.Wf ∧ (moveCtor v).2.Wf) ∧
    (rhs.Wf → (copyAssign v rhs).Wf) ∧
    (v.Wf → rhs.Wf → (moveAssign v rhs).1.Wf ∧ (moveAssign v rhs).2.Wf) ∧
    (v.Wf → (emplaceBack v x).Wf) ∧
    (v.Wf → (pushBack v x).Wf) ∧
    (v.Wf → (popBack v).Wf) ∧
    (v.Wf → (emplace v index x).Wf) ∧
    (v.Wf → (erase v dist).Wf) ∧
    (v.Wf → (reserve v n).Wf) ∧
    (v.Wf → (resize d v n).Wf) ∧
    (v.Wf → rhs.Wf → (swapOp v rhs).1.Wf ∧ (swapOp v rhs).2.Wf) := by
  refine ⟨?_, ?_, ?_, ?_, ?_, ?_, ?_, ?_, ?_, ?_, ?_, ?_, ?_, ?_⟩
  · simp [Wf, size, emptyVec]
  · simp [Wf, size, sizedCtor]
  · simp [Wf, size, copyCtor]
  · intro hv
    exact ⟨hv, by simp [Wf, size, moveCtor, swapOp, emptyVec]⟩
  · intro hr
    rw [copyAssign_eq]
    simp only [Wf, size]
    split <;> omega
  · intro hv hr
    exact ⟨hr, hv⟩
  · intro hv
    simp only [Wf, size] at hv ⊢
    unfold emplaceBack
    split
    · simp
      split <;> omega
    · simp
      omega
  · intro hv
    simp only [Wf, size] at hv ⊢
    unfold pushBack emplaceBack
    split
    · simp
      split <;> omega
    · simp
      omega
  · intro hv
    simp only [Wf, size, popBack, List.length_dropLast] at hv ⊢
    omega
  · intro hv
    simp only [Wf, size] at hv ⊢
    unfold emplace
    split
    · unfold emplaceBack
      split
      · simp
        split <;> omega
      · simp
        omega
    · split
      · unfold emplaceEnoughtCapacity
        simp
        omega
      · unfold emplaceNoCapacity
        simp
        split <;> omega
  · intro hv
    simp only [Wf, size, erase] at hv ⊢
    simp
    omega
  · intro hv
    simp only [Wf, size] at hv ⊢
    unfold reserve
    split
    · exact hv
    · simp
      omega
  · intro hv
    simp only [Wf, size] at hv ⊢
    unfold resize reserve
    split <;> dsimp only <;> split <;> simp <;> omega
  · intro hv hr
    exact ⟨hr, hv⟩

/-- C8 witness: appending to the well-formed one-element vector `[1]` of
capacity 1 keeps the invariant. -/
theorem invariant_preserved_wit :
    (emplaceBack (⟨[1], 1⟩ : Vector Nat) 2).Wf :=
  (invariant_preserved 0 2 (⟨[1], 1⟩ : Vector Nat) ⟨[], 0⟩ 0 0 0).2.2.2.2.2.2.1
    (by decide)

end Vector

end AdvancedVector
